import Mathlib

/-!
Verification of the osde2e configuration / metric-matcher / waiter core.

The definitions below are a shallow embedding of the Go sources:
* `LogMetric`, `LogMetrics.GetMetricByName`, `LogMetric.IsPassing` and
  `LogMetric.HasMatches` come from the config package
  (`pkg/config`, file `src/unnamed/part_000`).
* Go `int` fields are embedded as `Int` (only comparisons are performed on
  them, so no overflow modelling is required); log text is a list of
  characters; Go's `regexp` standard library, which `HasMatches` delegates
  to, is modelled on a fragment of its syntax by an explicit syntax tree, a
  leftmost-first matcher (with `.` excluding newline, as under the default
  flags) and the `FindAll` scan loop, following the documented Go
  semantics; a pattern outside the fragment is reported as such and the
  model asserts nothing about it, so that the modelled compile-failure
  verdict is sound for `regexp.MustCompile`.
* The poll-until-ready waiter (`wait.PollImmediate`, used at
  `src/unnamed/part_001`) and the reflection-based config resolver are not
  part of the provided sources, so they are modelled from the spec.
-/

namespace Osde2e

/-- LogMetric lets you define a metric name and a regex to apply on the build
log (source struct `LogMetric`): a name, a regex in string form, and
high/low thresholds.  The `default:"9999"` / `default:"-1"` struct tags are
config-resolution defaults only; the Go zero value of the struct has both
thresholds equal to 0. -/
structure LogMetric where
  Name : String
  RegEx : String
  HighThreshold : Int
  LowThreshold : Int
deriving DecidableEq, Repr

/-- The Go zero value `LogMetric{}`: empty strings, zero thresholds. -/
def LogMetric.zeroValue : LogMetric :=
  { Name := "", RegEx := "", HighThreshold := 0, LowThreshold := 0 }

/-- LogMetrics is an array of LogMetric types (source type `LogMetrics`). -/
abbrev LogMetrics := List LogMetric

/-- GetMetricByName returns a LogMetric from the array based on the name
(source method `LogMetrics.GetMetricByName`): the loop returns the first
element whose `Name` equals `name`, and `&LogMetric{}` when none does. -/
def LogMetrics.GetMetricByName (metrics : LogMetrics) (name : String) : LogMetric :=
  match metrics with
  | [] => LogMetric.zeroValue
  | m :: rest =>
    if name == m.Name then m
    else LogMetrics.GetMetricByName rest name

/-- IsPassing checks the current counter against the thresholds (source
method `LogMetric.IsPassing`):
`metric.HighThreshold > value && metric.LowThreshold < value`. -/
def LogMetric.IsPassing (metric : LogMetric) (value : Int) : Bool :=
  metric.HighThreshold > value && metric.LowThreshold < value

/-- Outcome of a wait: the three terminal states of the spec's waiter state
machine (`Waiting → Succeeded`, `Waiting → Failed(error)`,
`Waiting → TimedOut`), all distinguishable by the caller. -/
inductive PollResult (ε : Type) where
  | Succeeded : PollResult ε
  | Failed : ε → PollResult ε
  | TimedOut : PollResult ε
deriving DecidableEq, Repr

/-- Modelled from the spec: the loop body of the poll-until-ready waiter
(the repository calls `wait.PollImmediate`, whose implementation is not among
the provided sources).  `remaining` is the number of checks still scheduled
before the deadline; the predicate is indexed by its invocation number so a
stateful predicate is modelled deterministically.  Per the spec, a non-nil
error terminates immediately and is surfaced; `(true, nil)` succeeds; when
the scheduled checks are exhausted with the predicate still `(false, nil)`
the outcome is `TimedOut`, distinct from a predicate error.  Returns the
outcome together with the total number of predicate invocations. -/
def waitFrom {ε : Type} (pred : Nat → Bool × Option ε) (n : Nat) :
    (remaining : Nat) → PollResult ε × Nat
  | 0 => (.TimedOut, n)
  | r + 1 =>
    match pred n with
    | (_, some e) => (.Failed e, n + 1)
    | (true, none) => (.Succeeded, n + 1)
    | (false, none) =>
      if r = 0 then (.TimedOut, n + 1) else waitFrom pred (n + 1) r

/-- Modelled from the spec: `WaitUntil(interval, timeout, predicate)`.  The
predicate is invoked synchronously, starting immediately at time 0 and then
at fixed intervals, so the checks scheduled before the timeout elapses are
those at times `k * interval < timeout` — that is,
`⌈timeout / interval⌉` invocations at most. -/
def WaitUntil {ε : Type} (interval timeout : Nat) (pred : Nat → Bool × Option ε) :
    PollResult ε × Nat :=
  waitFrom pred 0 ((timeout + interval - 1) / interval)

/-- Declared types a configuration leaf field may have, per the spec's data
model (string, integer, boolean, duration, list of strings). -/
inductive FieldType where
  | str : FieldType
  | int : FieldType
  | bool : FieldType
  | duration : FieldType
  | strList : FieldType
deriving DecidableEq, Repr

/-- A resolved configuration value of one of the declared field types. -/
inductive FieldValue where
  | str : String → FieldValue
  | int : Int → FieldValue
  | bool : Bool → FieldValue
  | duration : Int → FieldValue
  | strList : List String → FieldValue
deriving DecidableEq, Repr

/-- Modelled from the spec: a struct-like field descriptor of the config
resolver — a field name, an environment-variable name, a YAML path, a
declared type, a required flag, and an optional built-in default (the Go
source carries these as struct tags on `Config`; the reflection code that
reads them is not among the provided sources). -/
structure FieldDesc where
  name : String
  envVar : String
  yamlPath : String
  ftype : FieldType
  required : Bool
  defaultVal : Option FieldValue
deriving DecidableEq, Repr

/-- Modelled from the spec: parsing a raw environment-variable string per the
field's declared type; a parse failure yields `none` (surfaced as
`InvalidFieldType`). -/
def parseAs : FieldType → String → Option FieldValue
  | .str, s => some (.str s)
  | .int, s => (s.toInt?).map FieldValue.int
  | .bool, s =>
    if s = "true" then some (.bool true)
    else if s = "false" then some (.bool false)
    else none
  | .duration, s => (s.toInt?).map FieldValue.duration
  | .strList, s => some (.strList (s.splitOn ","))

/-- The zero value of each declared field type, used when an optional field
is left entirely unset. -/
def zeroOf : FieldType → FieldValue
  | .str => .str ""
  | .int => .int 0
  | .bool => .bool false
  | .duration => .duration 0
  | .strList => .strList []

/-- The spec's configuration-error taxonomy: `MissingRequiredField` names
every unset required field at once; `InvalidFieldType` names the field and
the raw value that failed to parse. -/
inductive ResolveError where
  | MissingRequiredField : List String → ResolveError
  | InvalidFieldType : String → String → ResolveError
deriving DecidableEq, Repr

/-- Modelled from the spec: per-field precedence of the config resolver —
explicit YAML value, else environment variable (parsed per declared type,
parse failure is `InvalidFieldType` naming the field and raw value), else
built-in default, else the zero value if the field is not required; a
required field with none of these yields `none`, collected by `Resolve`
into one `MissingRequiredField` error. -/
def resolveField (env : List (String × String))
    (yaml : Option (List (String × FieldValue))) (f : FieldDesc) :
    Except ResolveError (Option FieldValue) :=
  match yaml.bind (fun doc => doc.lookup f.yamlPath) with
  | some v => .ok (some v)
  | none =>
    match env.lookup f.envVar with
    | some raw =>
      match parseAs f.ftype raw with
      | some v => .ok (some v)
      | none => .error (.InvalidFieldType f.name raw)
    | none =>
      match f.defaultVal with
      | some v => .ok (some v)
      | none => if f.required then .ok none else .ok (some (zeroOf f.ftype))

/-- Modelled from the spec: resolve every field in order, stopping at the
first type error; missing required fields are recorded as `none` for later
collection. -/
def resolveAll (env : List (String × String))
    (yaml : Option (List (String × FieldValue))) :
    List FieldDesc → Except ResolveError (List (String × Option FieldValue))
  | [] => .ok []
  | f :: rest =>
    match resolveField env yaml f with
    | .error e => .error e
    | .ok v =>
      match resolveAll env yaml rest with
      | .error e => .error e
      | .ok tail => .ok ((f.name, v) :: tail)

/-- Modelled from the spec: the config resolver — given the field
descriptors, the environment-variable assignment and an optional YAML
document, produce the fully populated configuration, or fail with a
`MissingRequiredField` error naming every unset required field at once, or
with `InvalidFieldType`. -/
def Resolve (fields : List FieldDesc) (env : List (String × String))
    (yaml : Option (List (String × FieldValue))) :
    Except ResolveError (List (String × FieldValue)) :=
  match resolveAll env yaml fields with
  | .error e => .error e
  | .ok pairs =>
    let missing := (pairs.filter (fun p => p.2 = none)).map Prod.fst
    if missing.isEmpty then
      .ok (pairs.filterMap (fun p => p.2.map (fun v => (p.1, v))))
    else
      .error (.MissingRequiredField missing)

/-- Syntax of the regular-expression fragment used to model Go's `regexp`
standard library, which `LogMetric.HasMatches` delegates to (the library is
an external collaborator, not part of this repository's sources): the empty
pattern, a literal character, `.`, alternation `|`, concatenation, and `*`
(with `+` and `?` desugared to `star`/`alt` by the parser). -/
inductive Regexp where
  | emptyStr : Regexp
  | chr : Char → Regexp
  | anyChar : Regexp
  | alt : Regexp → Regexp → Regexp
  | cat : Regexp → Regexp → Regexp
  | star : Regexp → Regexp
deriving DecidableEq, Repr

/-- The lengths of the prefixes of `s` that `r` can match, in Go's
leftmost-first (Perl-like backtracking) preference order: the first element
is the length the engine reports for a match anchored at the start of `s`.
Alternation prefers its left branch, `star` is greedy and never takes an
empty iteration (as matching engines do to avoid empty-loop divergence);
`.` matches any character except newline, as Go's `.` does under
`MustCompile`'s default flags (no `DotNL`). -/
def matchLens : Regexp → List Char → List Nat
  | .emptyStr, _ => [0]
  | .chr _, [] => []
  | .chr c, a :: _ => if a = c then [1] else []
  | .anyChar, [] => []
  | .anyChar, a :: _ => if a = '\n' then [] else [1]
  | .alt r₁ r₂, s => matchLens r₁ s ++ matchLens r₂ s
  | .cat r₁ r₂, s =>
    (matchLens r₁ s).flatMap (fun n₁ =>
      (matchLens r₂ (s.drop n₁)).map (fun n₂ => n₁ + n₂))
  | .star _, [] => [0]
  | .star r₁, a :: s' =>
    ((matchLens r₁ (a :: s')).flatMap (fun n₁ =>
      if _h : 0 < n₁ then
        (matchLens (.star r₁) ((a :: s').drop n₁)).map (fun n₂ => n₁ + n₂)
      else [])) ++ [0]
termination_by r s => (sizeOf r, s.length)
decreasing_by
  all_goals simp_wf
  all_goals first
    | exact Prod.Lex.left _ _ (by omega)
    | exact Prod.Lex.right' _ (by omega) (by simp; omega)

/-- Whether `r` matches the empty string. -/
def nullable : Regexp → Bool
  | .emptyStr => true
  | .chr _ => false
  | .anyChar => false
  | .alt r₁ r₂ => nullable r₁ || nullable r₂
  | .cat r₁ r₂ => nullable r₁ && nullable r₂
  | .star _ => true

/-- After an empty match at `pos`, Go's `FindAll` loop advances by the width
of the rune at `pos` — one position inside the text, and past the end when
the scan already sits at the end. -/
def nextPos (s : List Char) (pos : Nat) : Nat :=
  if s.length ≤ pos then s.length + 1 else pos + 1

/-- The scan loop of Go's `Regexp.FindAll(b, -1)` (`allMatches` in the
regexp package), which `LogMetric.HasMatches` calls: walk the text left to
right; at the leftmost position where the pattern matches, report the
match `(start, length)` taken in backtracking preference order; resume after
a non-empty match at its end, and after an empty match one rune further —
rejecting an empty match that sits exactly at the end of the previous match
(`prevEnd`), as the Go loop does with `prevMatchEnd`. -/
def findAllAux (r : Regexp) (s : List Char) (pos : Nat) (prevEnd : Int) :
    List (Nat × Nat) :=
  if s.length < pos then []
  else
    match matchLens r (s.drop pos) with
    | [] => findAllAux r s (pos + 1) prevEnd
    | len :: _ =>
      if _h0 : len = 0 then
        if (pos : Int) = prevEnd then findAllAux r s (nextPos s pos) (pos + len)
        else (pos, len) :: findAllAux r s (nextPos s pos) (pos + len)
      else (pos, len) :: findAllAux r s (pos + len) (pos + len)
termination_by s.length + 1 - pos
decreasing_by
  all_goals try simp only [nextPos]
  all_goals try split
  all_goals omega

/-- All non-overlapping matches of `r` in `s`, as `(start, length)` pairs:
Go's `FindAll(s, -1)` starting at position 0 with no previous match. -/
def findAll (r : Regexp) (s : List Char) : List (Nat × Nat) :=
  findAllAux r s 0 (-1)

/-- Outcome of compiling a pattern against the modelled fragment of Go's
regexp syntax.  `ok r` means the pattern is inside the fragment and
compiles to `r`; `invalid` means the pattern is one that Go's
`regexp.MustCompile` itself rejects (an unmatched parenthesis or an
unexpected `)`); `unsupported` means the pattern falls outside the modelled
fragment (classes, braces, escapes, anchors, non-greedy or doubled
repetition operators), so the model says nothing about it — `invalid` is
sound for the program (every `invalid` pattern really fails to compile),
while `unsupported` is an abstention, never a claim. -/
inductive ParseResult (α : Type) where
  | ok : α → ParseResult α
  | invalid : ParseResult α
  | unsupported : ParseResult α
deriving DecidableEq, Repr

/-- The metacharacters of the modelled pattern syntax; the characters
opening the unsupported constructs (classes, braces, escapes, anchors) take
a pattern outside the modelled fragment. -/
def metaChars : List Char :=
  ['|', '*', '+', '?', '(', ')', '[', ']', '\x7b', '\x7d', '\\', '^', '$', '.']

mutual

/-- Alternation level of the pattern grammar: `alt := cat ('|' alt)?`.
The parser models `regexp.MustCompile`'s syntax check on the supported
fragment; fuel only bounds recursion depth. -/
def parseAlt (fuel : Nat) (s : List Char) : ParseResult (Regexp × List Char) :=
  match fuel with
  | 0 => .unsupported
  | fuel + 1 =>
    match parseCat fuel s with
    | .ok (r₁, s₁) =>
      match s₁ with
      | '|' :: s₂ =>
        match parseAlt fuel s₂ with
        | .ok (r₂, s₃) => .ok (.alt r₁ r₂, s₃)
        | e => e
      | _ => .ok (r₁, s₁)
    | e => e

/-- Concatenation level: a possibly empty sequence of repetitions, ending at
the pattern end, `)` or `|`. -/
def parseCat (fuel : Nat) (s : List Char) : ParseResult (Regexp × List Char) :=
  match fuel with
  | 0 => .unsupported
  | fuel + 1 =>
    match s with
    | [] => .ok (.emptyStr, [])
    | ')' :: _ => .ok (.emptyStr, s)
    | '|' :: _ => .ok (.emptyStr, s)
    | _ =>
      match parseRep fuel s with
      | .ok (r₁, s₁) =>
        match s₁ with
        | [] => .ok (r₁, [])
        | ')' :: _ => .ok (r₁, s₁)
        | '|' :: _ => .ok (r₁, s₁)
        | _ =>
          match parseCat fuel s₁ with
          | .ok (r₂, s₂) => .ok (.cat r₁ r₂, s₂)
          | e => e
      | e => e

/-- Repetition level: an atom optionally followed by one `*`, `+` or `?`
(`x+` is `x x*`, `x?` is `x | empty`). -/
def parseRep (fuel : Nat) (s : List Char) : ParseResult (Regexp × List Char) :=
  match fuel with
  | 0 => .unsupported
  | fuel + 1 =>
    match parseAtom fuel s with
    | .ok (a, s₁) =>
      match s₁ with
      | '*' :: s₂ => .ok (.star a, s₂)
      | '+' :: s₂ => .ok (.cat a (.star a), s₂)
      | '?' :: s₂ => .ok (.alt a .emptyStr, s₂)
      | _ => .ok (a, s₁)
    | e => e

/-- Atom level: a parenthesised group, `.`, or a literal character.  A
group whose body parses but is never closed is `invalid` (Go: missing
closing parenthesis).  A repetition operator in atom position is
`unsupported` rather than `invalid`: Go rejects a leading `*` and a doubled
`a**`, but accepts the non-greedy `a*?`, and the atom cannot tell these
apart locally.  An unsupported metacharacter (class, brace, escape,
anchor) is `unsupported`. -/
def parseAtom (fuel : Nat) (s : List Char) : ParseResult (Regexp × List Char) :=
  match fuel with
  | 0 => .unsupported
  | fuel + 1 =>
    match s with
    | [] => .unsupported
    | '(' :: s₁ =>
      match parseAlt fuel s₁ with
      | .ok (r, ')' :: s₃) => .ok (r, s₃)
      | .ok _ => .invalid
      | e => e
    | '.' :: s₁ => .ok (.anyChar, s₁)
    | '*' :: _ => .unsupported
    | '+' :: _ => .unsupported
    | '?' :: _ => .unsupported
    | c :: s₁ => if c ∈ metaChars then .unsupported else .ok (.chr c, s₁)

end

/-- Compiling a pattern string, modelling `regexp.MustCompile`'s
success-or-panic outcome on the modelled fragment.  A fully consumed parse
is `ok`; leftover input necessarily starts with an unmatched `)` (the
parsers only stop at the end, at `)` or at `|`, and `parseAlt` consumes
`|`), which Go rejects, so it is `invalid`; parser-level `invalid` (an
unterminated group) and `unsupported` (outside the fragment, including
exhausted fuel) pass through. -/
def goParse (pat : String) : ParseResult Regexp :=
  match parseAlt (4 * pat.length + 4) pat.data with
  | .ok (r, []) => .ok r
  | .ok (_, _) => .invalid
  | .invalid => .invalid
  | .unsupported => .unsupported

/-- The observable outcome of `HasMatches` in the model: a returned count,
the `MustCompile` panic, or — for a pattern outside the modelled regexp
fragment — an abstention that claims nothing about the program. -/
inductive HasMatchesResult where
  | count : Int → HasMatchesResult
  | panics : HasMatchesResult
  | unmodelled : HasMatchesResult
deriving DecidableEq, Repr

/-- HasMatches attempts to match the regex provided a bytearray and returns
the number of matches (source method `LogMetric.HasMatches`:
`len(regexp.MustCompile(metric.RegEx).FindAll(data, -1))`).  `MustCompile`
panics on a pattern that does not compile (`panics`); a pattern outside the
modelled fragment gives `unmodelled`; log bytes are modelled as
characters. -/
def LogMetric.HasMatches (metric : LogMetric) (data : List Char) : HasMatchesResult :=
  match goParse metric.RegEx with
  | .ok r => .count ((findAll r data).length : Int)
  | .invalid => .panics
  | .unsupported => .unmodelled

/-- C1: for every LogMetric `m` and integer count `c`, `IsPassing m c`
returns true if and only if `c` is strictly greater than `m.LowThreshold`
and strictly less than `m.HighThreshold`; in particular a count equal to
either threshold fails. -/
theorem isPassing_iff_strictly_between (m : LogMetric) (c : Int) :
    m.IsPassing c = (decide (m.LowThreshold < c) && decide (c < m.HighThreshold))
      ∧ m.IsPassing m.LowThreshold = false
      ∧ m.IsPassing m.HighThreshold = false := by
  refine ⟨?_, ?_, ?_⟩
  · simp [LogMetric.IsPassing, Bool.and_comm]
  · simp [LogMetric.IsPassing]
  · simp [LogMetric.IsPassing]

/-- C3: `GetMetricByName` returns the first metric in the collection (in
order) whose `Name` equals the given name when one exists, and otherwise the
sentinel zero-value metric; the lookup is total (it never produces a
missing-value error). -/
theorem getMetricByName_eq_find (metrics : LogMetrics) (name : String) :
    metrics.GetMetricByName name
      = (metrics.find? (fun m => decide (m.Name = name))).getD LogMetric.zeroValue := by
  induction metrics with
  | nil => rfl
  | cons m rest ih =>
    by_cases h : m.Name = name
    · simp [LogMetrics.GetMetricByName, List.find?, h]
    · have h' : ¬ (name == m.Name) = true := by
        simp [Ne.symm h]
      simp [LogMetrics.GetMetricByName, List.find?, h, h', ih]

/-- C2 counterexample: on the concrete empty collection and the unknown name
"missing", the metric returned by `GetMetricByName` has both thresholds equal
to 0 (not the default-permissive 9999 and -1), and a count of zero FAILS `IsPassing`,
contradicting the claim that zero matches passes. -/
theorem getMetricByName_unknown_zero_fails :
    (LogMetrics.GetMetricByName [] "missing").IsPassing 0 = false
      ∧ (LogMetrics.GetMetricByName [] "missing").HighThreshold = 0
      ∧ (LogMetrics.GetMetricByName [] "missing").LowThreshold = 0 := by
  decide

/-- C2 amended: for every collection and every name not equal to the name of
any metric in it, `GetMetricByName` returns the zero-value metric — empty
name, empty regex, both thresholds 0 — and the lookup never fails; with these
zero thresholds a count of zero fails `IsPassing` (it does not pass). -/
theorem getMetricByName_unknown_eq_zeroValue (metrics : LogMetrics) (name : String)
    (h : ∀ m ∈ metrics, m.Name ≠ name) :
    metrics.GetMetricByName name = LogMetric.zeroValue
      ∧ (metrics.GetMetricByName name).Name = ""
      ∧ (metrics.GetMetricByName name).RegEx = ""
      ∧ (metrics.GetMetricByName name).IsPassing 0 = false := by
  have hz : metrics.GetMetricByName name = LogMetric.zeroValue := by
    induction metrics with
    | nil => rfl
    | cons m rest ih =>
      have hm : m.Name ≠ name := h m (by simp)
      have h' : ¬ (name == m.Name) = true := by
        simp [Ne.symm hm]
      have hrest : ∀ m' ∈ rest, m'.Name ≠ name := fun m' hm' => h m' (by simp [hm'])
      simp [LogMetrics.GetMetricByName, h', ih hrest]
  refine ⟨hz, ?_, ?_, ?_⟩ <;> rw [hz] <;> rfl

/-- Witness for the C2 amended theorem at a concrete collection and name. -/
theorem getMetricByName_unknown_eq_zeroValue_witness :
    (∀ m ∈ ([⟨"a", "x", 5, -1⟩] : LogMetrics), m.Name ≠ "b")
      ∧ (LogMetrics.GetMetricByName [⟨"a", "x", 5, -1⟩] "b").IsPassing 0 = false :=
  ⟨by decide,
   (getMetricByName_unknown_eq_zeroValue [⟨"a", "x", 5, -1⟩] "b" (by decide)).2.2.2⟩

/-- C5: `IsPassing` is monotonic in the count: from a passing count, moving
the count to any value at or past `HighThreshold` fails, moving it to any
value at or below `LowThreshold` fails, and the set of passing counts is an
interval (convex). -/
theorem isPassing_monotone (m : LogMetric) :
    (∀ c c' : Int, m.IsPassing c = true → m.HighThreshold ≤ c' → m.IsPassing c' = false)
      ∧ (∀ c c' : Int, m.IsPassing c = true → c' ≤ m.LowThreshold → m.IsPassing c' = false)
      ∧ (∀ c₁ c₂ c₃ : Int, c₁ ≤ c₂ → c₂ ≤ c₃ →
          m.IsPassing c₁ = true → m.IsPassing c₃ = true → m.IsPassing c₂ = true) := by
  refine ⟨?_, ?_, ?_⟩
  all_goals intro a b
  all_goals simp_all [LogMetric.IsPassing]
  all_goals omega

/-- Witness for C5 at a concrete metric and concrete counts. -/
theorem isPassing_monotone_witness :
    LogMetric.IsPassing ⟨"m", "r", 10, -1⟩ 10 = false
      ∧ LogMetric.IsPassing ⟨"m", "r", 10, -1⟩ (-1) = false
      ∧ LogMetric.IsPassing ⟨"m", "r", 10, -1⟩ 1 = true :=
  ⟨(isPassing_monotone ⟨"m", "r", 10, -1⟩).1 0 10 (by decide) (by decide),
   (isPassing_monotone ⟨"m", "r", 10, -1⟩).2.1 0 (-1) (by decide) (by decide),
   (isPassing_monotone ⟨"m", "r", 10, -1⟩).2.2 0 1 2 (by decide) (by decide)
     (by decide) (by decide)⟩

/-- C10: for every LogMetric whose HighThreshold is at most LowThreshold + 1
— in particular the zero-value metric returned by `GetMetricByName` for an
unknown name, whose thresholds are both 0 — `IsPassing` returns false for
every count, including 0. -/
theorem isPassing_false_of_degenerate (m : LogMetric)
    (h : m.HighThreshold ≤ m.LowThreshold + 1) (c : Int) :
    m.IsPassing c = false := by
  by_cases h1 : m.HighThreshold > c
  · have h2 : ¬ (m.LowThreshold < c) := by omega
    simp [LogMetric.IsPassing, h2]
  · simp [LogMetric.IsPassing, h1]

/-- Witness for C10: the zero-value metric returned for an unknown name fails
at count 0. -/
theorem isPassing_false_of_degenerate_witness :
    (LogMetrics.GetMetricByName [] "unknown").IsPassing 0 = false :=
  isPassing_false_of_degenerate (LogMetrics.GetMetricByName [] "unknown") (by decide) 0

/-- C6: for every positive interval and timeout and every predicate whose
first invocation returns `(false, some e)`, `WaitUntil` terminates
immediately with outcome `Failed e` and the predicate has been invoked
exactly once — no further retries. -/
theorem waitUntil_first_error {ε : Type} (interval timeout : Nat)
    (pred : Nat → Bool × Option ε) (e : ε)
    (hi : 0 < interval) (ht : 0 < timeout) (hp : pred 0 = (false, some e)) :
    WaitUntil interval timeout pred = (.Failed e, 1) := by
  unfold WaitUntil
  have hr : (timeout + interval - 1) / interval ≠ 0 := by
    intro h0
    rw [Nat.div_eq_zero_iff (by omega)] at h0
    omega
  obtain ⟨r, hr'⟩ : ∃ r, (timeout + interval - 1) / interval = r + 1 :=
    ⟨(timeout + interval - 1) / interval - 1,
     (Nat.succ_pred_eq_of_pos (Nat.pos_of_ne_zero hr)).symm⟩
  rw [hr']
  simp [waitFrom, hp]

/-- Witness for C6 at interval 1, timeout 2 and a predicate failing on its
first call. -/
theorem waitUntil_first_error_witness :
    WaitUntil 1 2 (fun _ => (false, some "boom")) = (.Failed "boom", 1) :=
  waitUntil_first_error 1 2 (fun _ => (false, some "boom")) "boom"
    (by decide) (by decide) rfl

/-- C7: for every predicate that always returns `(false, nil)`, `WaitUntil`
with interval 1 and timeout 2 terminates with the `TimedOut` outcome, which
is a constructor distinct from every predicate-error outcome `Failed e`, so
the caller can distinguish a timeout from a predicate error. -/
theorem waitUntil_timeout {ε : Type} (pred : Nat → Bool × Option ε)
    (hp : ∀ n, pred n = (false, none)) :
    WaitUntil 1 2 pred = (.TimedOut, 2)
      ∧ ∀ e : ε, (PollResult.TimedOut : PollResult ε) ≠ .Failed e := by
  constructor
  · show waitFrom pred 0 ((2 + 1 - 1) / 1) = _
    norm_num
    simp [waitFrom, hp 0, hp 1]
  · intro e h
    exact PollResult.noConfusion h

/-- Witness for C7 at the always-not-ready predicate. -/
theorem waitUntil_timeout_witness :
    WaitUntil 1 2 (fun _ => (false, (none : Option String))) = (.TimedOut, 2) :=
  (waitUntil_timeout (fun _ => (false, none)) (fun _ => rfl)).1

/-- Helper for C8: each field's resolution reads only that field's YAML path
and environment variable. -/
theorem resolveField_congr (env₁ env₂ : List (String × String))
    (yaml₁ yaml₂ : Option (List (String × FieldValue))) (f : FieldDesc)
    (henv : env₁.lookup f.envVar = env₂.lookup f.envVar)
    (hyaml : yaml₁.bind (fun doc => doc.lookup f.yamlPath)
      = yaml₂.bind (fun doc => doc.lookup f.yamlPath)) :
    resolveField env₁ yaml₁ f = resolveField env₂ yaml₂ f := by
  unfold resolveField
  rw [henv, hyaml]

/-- C8: config resolution is deterministic and side-effect-free — its result
is a pure function of the field descriptors, the environment-variable
assignment (restricted to the declared variables) and the optional YAML
document (restricted to the declared paths), so two calls of the resolver
on identical inputs produce identical configuration values. -/
theorem resolve_deterministic (fields : List FieldDesc)
    (env₁ env₂ : List (String × String))
    (yaml₁ yaml₂ : Option (List (String × FieldValue)))
    (henv : ∀ f ∈ fields, env₁.lookup f.envVar = env₂.lookup f.envVar)
    (hyaml : ∀ f ∈ fields, yaml₁.bind (fun doc => doc.lookup f.yamlPath)
      = yaml₂.bind (fun doc => doc.lookup f.yamlPath)) :
    Resolve fields env₁ yaml₁ = Resolve fields env₂ yaml₂ := by
  have hall : resolveAll env₁ yaml₁ fields = resolveAll env₂ yaml₂ fields := by
    induction fields with
    | nil => rfl
    | cons f rest ih =>
      have hf : resolveField env₁ yaml₁ f = resolveField env₂ yaml₂ f :=
        resolveField_congr env₁ env₂ yaml₁ yaml₂ f
          (henv f (by simp)) (hyaml f (by simp))
      have hrest : resolveAll env₁ yaml₁ rest = resolveAll env₂ yaml₂ rest :=
        ih (fun g hg => henv g (by simp [hg])) (fun g hg => hyaml g (by simp [hg]))
      unfold resolveAll
      rw [hf, hrest]
  unfold Resolve
  rw [hall]

/-- Witness for C8 at a concrete descriptor list and two environments that
agree on the declared variable. -/
theorem resolve_deterministic_witness :
    Resolve [⟨"provider", "PROVIDER", "provider", .str, false, some (.str "ocm")⟩]
        [("PROVIDER", "aws")] none
      = Resolve [⟨"provider", "PROVIDER", "provider", .str, false, some (.str "ocm")⟩]
        [("OTHER", "1"), ("PROVIDER", "aws")] none :=
  resolve_deterministic
    [⟨"provider", "PROVIDER", "provider", .str, false, some (.str "ocm")⟩]
    [("PROVIDER", "aws")] [("OTHER", "1"), ("PROVIDER", "aws")] none none
    (by decide) (by decide)

/-- A match length never exceeds the length of the text it is matched
against. -/
theorem matchLens_le (r : Regexp) (s : List Char) :
    ∀ n ∈ matchLens r s, n ≤ s.length := by
  induction r, s using matchLens.induct with
  | case1 s => intro n hn; simp [matchLens] at hn; omega
  | case2 c => intro n hn; simp [matchLens] at hn
  | case3 c tail => intro n hn; simp [matchLens] at hn; simp [hn]
  | case4 c a tail hne => intro n hn; simp [matchLens, hne] at hn
  | case5 => intro n hn; simp [matchLens] at hn
  | case6 tail => intro n hn; simp [matchLens] at hn
  | case7 a tail hne => intro n hn; simp [matchLens, hne] at hn; simp [hn]
  | case8 r₁ r₂ s ih₁ ih₂ =>
    intro n hn
    simp only [matchLens, List.mem_append] at hn
    rcases hn with hn | hn
    · exact ih₁ n hn
    · exact ih₂ n hn
  | case9 r₁ r₂ s ih₁ ih₂ =>
    intro n hn
    simp only [matchLens, List.mem_flatMap, List.mem_map] at hn
    obtain ⟨n₁, hn₁, n₂, hn₂, rfl⟩ := hn
    have h₁ := ih₁ n₁ hn₁
    have h₂ := ih₂ n₁ n₂ hn₂
    simp only [List.length_drop] at h₂
    omega
  | case10 a => intro n hn; simp [matchLens] at hn; simp [hn]
  | case11 r₁ a s' ih₁ ih₂ =>
    intro n hn
    simp only [matchLens, List.mem_append, List.mem_flatMap] at hn
    rcases hn with ⟨n₁, hn₁, hn⟩ | hn
    · by_cases h : 0 < n₁
      · rw [dif_pos h] at hn
        simp only [List.mem_map] at hn
        obtain ⟨n₂, hn₂, rfl⟩ := hn
        have hle₁ := ih₁ n₁ hn₁
        have hle₂ := ih₂ n₁ h n₂ hn₂
        simp only [List.length_drop, List.length_cons] at hle₁ hle₂ ⊢
        omega
      · rw [dif_neg h] at hn
        simp at hn
    · simp at hn
      simp [hn]

/-- A regex that does not match the empty string has no match against the
empty text. -/
theorem nullable_false_matchLens_nil (r : Regexp) (h : nullable r = false) :
    matchLens r [] = [] := by
  induction r with
  | emptyStr => simp [nullable] at h
  | chr c => simp [matchLens]
  | anyChar => simp [matchLens]
  | alt r₁ r₂ ih₁ ih₂ =>
    simp only [nullable, Bool.or_eq_false_iff] at h
    simp [matchLens, ih₁ h.1, ih₂ h.2]
  | cat r₁ r₂ ih₁ ih₂ =>
    simp only [nullable, Bool.and_eq_false_iff] at h
    rcases h with h | h
    · simp [matchLens, ih₁ h]
    · simp only [matchLens]
      rw [List.flatMap_eq_nil_iff]
      intro n₁ hn₁
      have hle := matchLens_le r₁ [] n₁ hn₁
      simp at hle
      subst hle
      simp [ih₂ h]
  | star r ih => simp [nullable] at h


/-- Advancing after an empty match makes progress while inside the text. -/
theorem nextPos_gt (s : List Char) (pos : Nat) (h : pos ≤ s.length) :
    pos < nextPos s pos := by
  unfold nextPos
  split <;> omega

/-- Every match reported by the scan starts at or after the scan
position. -/
theorem findAllAux_mem_ge (r : Regexp) (s : List Char) (pos : Nat) (prevEnd : Int) :
    ∀ p ∈ findAllAux r s pos prevEnd, pos ≤ p.1 := by
  induction pos, prevEnd using findAllAux.induct r s with
  | case1 pos prevEnd hlt =>
    intro p hp
    rw [findAllAux, if_pos hlt] at hp
    simp at hp
  | case2 pos prevEnd hlt hml ih =>
    intro p hp
    rw [findAllAux, if_neg hlt] at hp
    simp only [hml] at hp
    have := ih p hp
    omega
  | case3 pos hlt tail hml ih =>
    intro p hp
    rw [findAllAux, if_neg hlt] at hp
    simp only [hml, dif_pos rfl, if_pos rfl] at hp
    have h₁ := ih p hp
    have h₂ := nextPos_gt s pos (by omega)
    omega
  | case4 pos prevEnd hlt tail hne hml ih =>
    intro p hp
    rw [findAllAux, if_neg hlt] at hp
    simp only [hml, dif_pos rfl, if_neg hne] at hp
    rcases List.mem_cons.mp hp with rfl | hp'
    · exact le_refl pos
    · have h₁ := ih p hp'
      have h₂ := nextPos_gt s pos (by omega)
      omega
  | case5 pos prevEnd hlt n tail hml hn ih =>
    intro p hp
    rw [findAllAux, if_neg hlt] at hp
    simp only [hml, dif_neg hn] at hp
    rcases List.mem_cons.mp hp with rfl | hp'
    · exact le_refl pos
    · have := ih p hp'
      omega

/-- Every `(start, length)` pair reported by the scan is a real match: the
reported length heads the preference-ordered match lengths at `start`. -/
theorem findAllAux_mem_match (r : Regexp) (s : List Char) (pos : Nat) (prevEnd : Int) :
    ∀ p ∈ findAllAux r s pos prevEnd, ∃ t, matchLens r (s.drop p.1) = p.2 :: t := by
  induction pos, prevEnd using findAllAux.induct r s with
  | case1 pos prevEnd hlt =>
    intro p hp
    rw [findAllAux, if_pos hlt] at hp
    simp at hp
  | case2 pos prevEnd hlt hml ih =>
    intro p hp
    rw [findAllAux, if_neg hlt] at hp
    simp only [hml] at hp
    exact ih p hp
  | case3 pos hlt tail hml ih =>
    intro p hp
    rw [findAllAux, if_neg hlt] at hp
    simp only [hml, dif_pos rfl, if_pos rfl] at hp
    exact ih p hp
  | case4 pos prevEnd hlt tail hne hml ih =>
    intro p hp
    rw [findAllAux, if_neg hlt] at hp
    simp only [hml, dif_pos rfl, if_neg hne] at hp
    rcases List.mem_cons.mp hp with rfl | hp'
    · exact ⟨tail, hml⟩
    · exact ih p hp'
  | case5 pos prevEnd hlt n tail hml hn ih =>
    intro p hp
    rw [findAllAux, if_neg hlt] at hp
    simp only [hml, dif_neg hn] at hp
    rcases List.mem_cons.mp hp with rfl | hp'
    · exact ⟨tail, hml⟩
    · exact ih p hp'

/-- The matches reported by the scan are non-overlapping: each match ends
at or before the start of the next. -/
theorem findAllAux_chain (r : Regexp) (s : List Char) (pos : Nat) (prevEnd : Int) :
    List.Chain' (fun p q => p.1 + p.2 ≤ q.1) (findAllAux r s pos prevEnd) := by
  induction pos, prevEnd using findAllAux.induct r s with
  | case1 pos prevEnd hlt =>
    rw [findAllAux, if_pos hlt]
    exact List.chain'_nil
  | case2 pos prevEnd hlt hml ih =>
    rw [findAllAux, if_neg hlt]
    simp only [hml]
    exact ih
  | case3 pos hlt tail hml ih =>
    rw [findAllAux, if_neg hlt]
    simp only [hml, dif_pos rfl, if_pos rfl]
    exact ih
  | case4 pos prevEnd hlt tail hne hml ih =>
    rw [findAllAux, if_neg hlt]
    simp only [hml, dif_pos rfl, dite_true, if_true, if_neg hne]
    rw [List.chain'_cons']
    refine ⟨?_, ih⟩
    intro y hy
    have hmem : y ∈ findAllAux r s (nextPos s pos) ((pos : Int) + ((0 : Nat) : Int)) :=
      List.mem_of_mem_head? hy
    have h₁ := findAllAux_mem_ge r s (nextPos s pos) ((pos : Int) + ((0 : Nat) : Int)) y hmem
    have h₂ := nextPos_gt s pos (by omega)
    simp only []
    omega
  | case5 pos prevEnd hlt n tail hml hn ih =>
    rw [findAllAux, if_neg hlt]
    simp only [hml, dif_neg hn]
    rw [List.chain'_cons']
    refine ⟨?_, ih⟩
    intro y hy
    have hmem : y ∈ findAllAux r s (pos + n) ((pos : Int) + (n : Int)) :=
      List.mem_of_mem_head? hy
    have h₁ := findAllAux_mem_ge r s (pos + n) ((pos : Int) + (n : Int)) y hmem
    simp only []
    omega

/-- A regex that does not match the empty string has no matches at all in
the empty text. -/
theorem findAll_nil_of_not_nullable (r : Regexp) (h : nullable r = false) :
    findAll r [] = [] := by
  unfold findAll
  rw [findAllAux, if_neg (by simp)]
  simp only [List.drop_nil, nullable_false_matchLens_nil r h]
  rw [findAllAux, if_pos (by simp)]

/-- C4 counterexample: the empty pattern "" is a valid regex (it compiles),
yet applied to the empty log text HasMatches returns the count 1, not 0 —
the engine reports one empty match at position 0 — contradicting the claim
that an empty log yields 0 for every valid regex. -/
theorem hasMatches_empty_pattern_counterexample :
    goParse "" = .ok Regexp.emptyStr
      ∧ LogMetric.HasMatches ⟨"m", "", 9999, -1⟩ [] = .count 1 := by
  have hfa : findAll Regexp.emptyStr [] = [(0, 0)] := by
    simp [findAll, findAllAux, matchLens, nextPos]
  constructor
  · rfl
  · unfold LogMetric.HasMatches
    rw [show goParse "" = ParseResult.ok Regexp.emptyStr from rfl]
    simp [hfa]

/-- C4 amended: for every metric whose regex is valid and does not match the
empty string, HasMatches on the empty log text returns 0; and on every log
text it returns the number of matches of the scan, whose reported matches
are real matches of the regex and are pairwise non-overlapping (each match
ends at or before the start of the next). -/
theorem hasMatches_spec (m : LogMetric) (r : Regexp)
    (hparse : goParse m.RegEx = .ok r) (hnull : nullable r = false) :
    m.HasMatches [] = .count 0
      ∧ ∀ data : List Char,
          m.HasMatches data = .count ((findAll r data).length : Int)
            ∧ List.Chain' (fun p q => p.1 + p.2 ≤ q.1) (findAll r data)
            ∧ ∀ p ∈ findAll r data, ∃ t, matchLens r (data.drop p.1) = p.2 :: t := by
  have hm : ∀ data : List Char,
      m.HasMatches data = .count ((findAll r data).length : Int) := by
    intro data
    unfold LogMetric.HasMatches
    rw [hparse]
  refine ⟨?_, fun data => ⟨hm data, findAllAux_chain r data 0 (-1),
    fun p hp => findAllAux_mem_match r data 0 (-1) p hp⟩⟩
  rw [hm [], findAll_nil_of_not_nullable r hnull]
  rfl



/-- Witness for C4 amended: the metric regex "ab" finds no match in the
empty log and exactly 2 matches in "xabyab". -/
theorem hasMatches_spec_witness :
    LogMetric.HasMatches ⟨"errors", "ab", 9999, -1⟩ [] = .count 0
      ∧ LogMetric.HasMatches ⟨"errors", "ab", 9999, -1⟩ "xabyab".data = .count 2 := by
  have h := hasMatches_spec ⟨"errors", "ab", 9999, -1⟩ (.cat (.chr 'a') (.chr 'b'))
    (by decide) (by decide)
  refine ⟨h.1, ?_⟩
  rw [(h.2 "xabyab".data).1]
  simp +decide [findAll, findAllAux, matchLens, nextPos]

/-- C9: for a metric whose regex does not compile — `goParse` answers
`invalid` only for patterns Go's `regexp.MustCompile` itself rejects —
HasMatches reaches the `MustCompile` panic; under the validity precondition
(`goParse` answers `ok`, patterns on which `MustCompile` succeeds) it
returns a count without reaching the panic branch, and the count is
non-negative.  Patterns outside the modelled fragment are `unsupported` and
the model asserts nothing about them. -/
theorem hasMatches_total_iff_valid (m : LogMetric) (data : List Char) :
    (goParse m.RegEx = .invalid → m.HasMatches data = .panics)
      ∧ ∀ r, goParse m.RegEx = .ok r →
          ∃ n : Int, m.HasMatches data = .count n ∧ 0 ≤ n := by
  constructor
  · intro h
    unfold LogMetric.HasMatches
    rw [h]
  · intro r h
    refine ⟨((findAll r data).length : Int), ?_, Int.natCast_nonneg _⟩
    unfold LogMetric.HasMatches
    rw [h]

/-- Witness for C9: the pattern "(" does not compile (missing closing
parenthesis), so HasMatches panics on it; the pattern "a" compiles and
yields a non-negative count on "xa". -/
theorem hasMatches_total_iff_valid_witness :
    LogMetric.HasMatches ⟨"m", "(", 0, 0⟩ [] = .panics
      ∧ ∃ n : Int, LogMetric.HasMatches ⟨"m", "a", 0, 0⟩ "xa".data = .count n ∧ 0 ≤ n :=
  ⟨(hasMatches_total_iff_valid ⟨"m", "(", 0, 0⟩ []).1 (by decide),
   (hasMatches_total_iff_valid ⟨"m", "a", 0, 0⟩ "xa".data).2 (.chr 'a') (by decide)⟩

end Osde2e
